import Mathlib

/-!
Verification of the fixed-size worker pool library (src/lib.rs).

The Rust code is shallowly embedded as follows.

Pure construction layer:
the outcome of an underlying OS thread spawn is abstracted as an
environment spawnErr : Nat → Option String giving, for each worker id,
either none (the spawn succeeds) or some e (the spawn fails, and e is the
Debug rendering of the std::io::Error).  Worker::new, ThreadPool::build,
ThreadPool::new and PoolCreationError's Debug impl are translated
function by function; the job channel's sending half held by the pool is
a handle with no observable construction-time state, so ThreadPool keeps
only its workers field.

Runtime layer:
the mpsc channel plus the Arc<Mutex<Receiver>> shared by the workers is
modelled by a small-step transition system PoolState/Step.  Each worker
thread runs the body of the closure spawned in Worker::new:
lock the mutex (acquire), block in recv while holding it (recvOk /
recvClosed, the latter when the Sender is gone and the queue empty, in
which case the unwrap panics), then — the MutexGuard temporary being
dropped at the end of the let statement — release the lock and run the
job (run).  ThreadPool::execute is the total function execute: the
unbounded mpsc send never blocks, and the unwrap on a send error is
modelled as the none result.
-/

namespace WorkerPool

/-- A worker as constructed by Worker::new: its id.  The JoinHandle it
also owns carries no state observable by the claims. -/
structure Worker where
  id : Nat
deriving DecidableEq

/-- The thread pool as returned by ThreadPool::build: the vector of
workers (the sender half of the channel has no construction-time state). -/
structure ThreadPool where
  workers : List Worker
deriving DecidableEq

/-- PoolCreationError: a value carrying the message string. -/
structure PoolCreationError where
  msg : String
deriving DecidableEq

/-- Worker::new with the thread-spawn outcome supplied by the
environment spawnErr: on some e the builder.spawn call fails with an
io::Error rendered as e, otherwise the worker is created. -/
def workerNew (spawnErr : Nat → Option String) (id : Nat) : Except String Worker :=
  match spawnErr id with
  | some e => Except.error e
  | none => Except.ok ⟨id⟩

/-- The for-loop body of ThreadPool::build over the ids it iterates:
on the first Worker::new failure the loop aborts with that error,
otherwise every created worker is pushed in order. -/
def buildLoop (spawnErr : Nat → Option String) : List Nat → Except String (List Worker)
  | [] => Except.ok []
  | id :: rest =>
    match workerNew spawnErr id with
    | Except.error e => Except.error e
    | Except.ok w => Except.map (fun ws => w :: ws) (buildLoop spawnErr rest)

/-- ThreadPool::build: rejects size 0 with the literal message, then
spawns workers with ids 0..size, wrapping the first spawn failure in a
PoolCreationError with the format string of line 67 of lib.rs. -/
def build (spawnErr : Nat → Option String) (size : Nat) : Except PoolCreationError ThreadPool :=
  if size = 0 then
    Except.error ⟨"Pool size has to be greater than 0"⟩
  else
    match buildLoop spawnErr (List.range size) with
    | Except.error e => Except.error ⟨"Cannot create pool worker: " ++ e⟩
    | Except.ok ws => Except.ok ⟨ws⟩

/-- The ids for which build's loop actually calls builder.spawn: all ids
up to and including the first failing one. -/
def spawnAttemptsLoop (spawnErr : Nat → Option String) : List Nat → List Nat
  | [] => []
  | id :: rest =>
    match spawnErr id with
    | some _ => [id]
    | none => id :: spawnAttemptsLoop spawnErr rest

/-- The spawn calls performed by build spawnErr size: none at all when
size = 0, since build returns before creating any thread. -/
def spawnAttempts (spawnErr : Nat → Option String) (size : Nat) : List Nat :=
  if size = 0 then [] else spawnAttemptsLoop spawnErr (List.range size)

/-- ThreadPool::new: build(1).unwrap(); the unwrap panic is the none
result. -/
def new (spawnErr : Nat → Option String) : Option ThreadPool :=
  Except.toOption (build spawnErr 1)

/-- std::sync::mpsc Sender::send on the unbounded channel: appends to
the queue and never blocks; errors exactly when the receiving half has
been dropped. -/
def mpscSend (receiverAlive : Bool) (queue : List Nat) (j : Nat) : Except Unit (List Nat) :=
  if receiverAlive then Except.ok (queue ++ [j]) else Except.error ()

/-- ThreadPool::execute: box the closure and send it, unwrapping the
result; the unwrap panic on a send error is the none result. -/
def execute (receiverAlive : Bool) (queue : List Nat) (j : Nat) : Option (List Nat) :=
  Except.toOption (mpscSend receiverAlive queue j)

/-- Formatter::write_str: appends to the output buffer. -/
def writeStr (buf s : String) : String := buf ++ s

/-- The Debug impl for PoolCreationError: f.write_str(self.msg.as_str()). -/
def PoolCreationError.fmtDebug (e : PoolCreationError) (buf : String) : String :=
  writeStr buf e.msg

/-- The status of one worker thread through the body spawned in
Worker::new: not yet holding the mutex; holding it, blocked in recv;
having received job j and released the lock, printing and running j;
returned after running j; panicked on the recv unwrap. -/
inductive WStatus where
  | start
  | locked
  | got (j : Nat)
  | terminated (j : Nat)
  | panicked
deriving DecidableEq

/-- A worker thread has finished (its closure, and with it its clone of
the Arc around the Receiver, is gone) when its body returned or panicked. -/
def WStatus.finished : WStatus → Bool
  | WStatus.terminated _ => true
  | WStatus.panicked => true
  | _ => false

/-- Global state of a running pool: the jobs the caller has yet to
submit, the channel queue, the holder of the receiver mutex, the status
of each worker thread (indexed by worker id), whether the pool's Sender
is still alive, and the log of (worker id, job) dequeue events in the
order they happened. -/
structure PoolState where
  pending : List Nat
  queue : List Nat
  lock : Option Nat
  workers : List WStatus
  senderAlive : Bool
  log : List (Nat × Nat)
deriving DecidableEq

/-- The state right after a successful ThreadPool::build of size n,
with the list of jobs the caller intends to submit via execute. -/
def initState (jobs : List Nat) (n : Nat) : PoolState :=
  ⟨jobs, [], none, List.replicate n WStatus.start, true, []⟩

/-- One scheduler-chosen step of the running system.  enqueue is a
caller's execute; dropSender drops the pool and with it the Sender;
acquire is a worker winning receiver.lock(); recvOk is recv returning a
job, after which the MutexGuard temporary is dropped (lock released)
before the job is invoked; recvClosed is recv returning Err because the
Sender is gone and the queue is empty, on which the unwrap panics (the
guard is dropped during unwinding); run is the job invocation finishing,
after which the body returns. -/
inductive Step : PoolState → PoolState → Prop where
  | enqueue (s : PoolState) (j : Nat) (rest : List Nat)
      (hp : s.pending = j :: rest) (hsa : s.senderAlive = true) :
      Step s { s with pending := rest, queue := s.queue ++ [j] }
  | dropSender (s : PoolState) :
      Step s { s with senderAlive := false }
  | acquire (s : PoolState) (i : Nat)
      (hw : s.workers[i]? = some WStatus.start) (hl : s.lock = none) :
      Step s { s with lock := some i, workers := s.workers.set i WStatus.locked }
  | recvOk (s : PoolState) (i j : Nat) (rest : List Nat)
      (hw : s.workers[i]? = some WStatus.locked) (hl : s.lock = some i)
      (hq : s.queue = j :: rest) :
      Step s { s with
                queue := rest,
                lock := none,
                workers := s.workers.set i (WStatus.got j),
                log := s.log ++ [(i, j)] }
  | recvClosed (s : PoolState) (i : Nat)
      (hw : s.workers[i]? = some WStatus.locked) (hl : s.lock = some i)
      (hq : s.queue = []) (hsa : s.senderAlive = false) :
      Step s { s with lock := none, workers := s.workers.set i WStatus.panicked }
  | run (s : PoolState) (i j : Nat)
      (hw : s.workers[i]? = some (WStatus.got j)) :
      Step s { s with workers := s.workers.set i (WStatus.terminated j) }

/-- Reachability under any interleaving of steps. -/
def Reach (s t : PoolState) : Prop := Relation.ReflTransGen Step s t

/-- The receiving half of the channel is still alive exactly while some
worker closure (each holding one Arc clone of the Receiver) has not
finished. -/
def receiverAliveOf (s : PoolState) : Bool := !(s.workers.all WStatus.finished)

/-- Trace events of one worker thread body. -/
inductive Event where
  | lockAcquire
  | recvCall
  | lockRelease
  | printGot (id : Nat)
  | invoke (j : Nat)
deriving DecidableEq

/-- How the thread body ends. -/
inductive Outcome where
  | returned
  | panicked
deriving DecidableEq

/-- The straight-line closure spawned in Worker::new, as the trace it
produces given the result recv eventually returns: lock, recv, then on
Ok(j) the guard is dropped, the diagnostic is printed and j is invoked
exactly once, the body returning; on Err the unwrap panics and the guard
is dropped during unwinding, nothing being printed or invoked.  There is
no loop: the body is one dequeue-and-execute cycle. -/
def workerBody (id : Nat) : Except Unit Nat → List Event × Outcome
  | Except.ok j =>
    ([Event.lockAcquire, Event.recvCall, Event.lockRelease,
      Event.printGot id, Event.invoke j], Outcome.returned)
  | Except.error _ =>
    ([Event.lockAcquire, Event.recvCall, Event.lockRelease], Outcome.panicked)

/-- Recognizes the recv event. -/
def Event.isRecvCall : Event → Bool
  | Event.recvCall => true
  | _ => false

/-- Recognizes a job invocation event. -/
def Event.isInvoke : Event → Bool
  | Event.invoke _ => true
  | _ => false

/-- The dequeue-log entries worker i accounts for, as determined by its
status: exactly one entry once it has received a job, none before that
and none if it panicked without one. -/
def expectedLog (i : Nat) : Option WStatus → List (Nat × Nat)
  | some (WStatus.got j) => [(i, j)]
  | some (WStatus.terminated j) => [(i, j)]
  | _ => []

/-- The inductive invariant of the running pool: the worker count is
fixed; the dequeue log, the queue and the not-yet-submitted jobs
together list the submitted jobs in FIFO order; the mutex is held by a
worker iff that worker is blocked in recv; and each worker's share of
the dequeue log matches its status. -/
structure Inv (jobs : List Nat) (n : Nat) (s : PoolState) : Prop where
  wlen : s.workers.length = n
  fifo : s.log.map Prod.snd ++ s.queue ++ s.pending = jobs
  lockw : ∀ i, s.lock = some i → s.workers[i]? = some WStatus.locked
  wlock : ∀ i, s.workers[i]? = some WStatus.locked → s.lock = some i
  logw : ∀ i, s.log.filter (fun p => p.1 == i) = expectedLog i s.workers[i]?

theorem expectedLog_length (i : Nat) (o : Option WStatus) : (expectedLog i o).length ≤ 1 := by
  cases o with
  | none => simp [expectedLog]
  | some w => cases w <;> simp [expectedLog]

theorem inv_init (jobs : List Nat) (n : Nat) : Inv jobs n (initState jobs n) := by
  refine ⟨by simp [initState], by simp [initState], ?_, ?_, ?_⟩
  · intro i h
    simp [initState] at h
  · intro i h
    rw [initState] at h
    simp only [List.getElem?_replicate] at h
    split at h
    · cases h
    · cases h
  · intro i
    rw [initState]
    simp only [List.getElem?_replicate, List.filter_nil]
    split <;> rfl


theorem inv_step {jobs : List Nat} {n : Nat} {s t : PoolState}
    (hs : Inv jobs n s) (hst : Step s t) : Inv jobs n t := by
  obtain ⟨wlen, fifo, lockw, wlock, logw⟩ := hs
  cases hst with
  | enqueue j rest hp hsa =>
    have f2 : s.log.map Prod.snd ++ (s.queue ++ [j]) ++ rest = jobs := by
      rw [hp] at fifo
      simpa using fifo
    exact ⟨wlen, f2, lockw, wlock, logw⟩
  | dropSender =>
    exact ⟨wlen, fifo, lockw, wlock, logw⟩
  | acquire i hw hl =>
    have hilt : i < s.workers.length := by
      rcases List.getElem?_eq_some_iff.mp hw with ⟨h, _⟩
      exact h
    have f1 : (s.workers.set i WStatus.locked).length = n := by simpa using wlen
    have f3 : ∀ k, (some i : Option Nat) = some k →
        (s.workers.set i WStatus.locked)[k]? = some WStatus.locked := by
      intro k hk
      have hik : i = k := Option.some.inj hk
      subst hik
      exact List.getElem?_set_self hilt
    have f4 : ∀ k, (s.workers.set i WStatus.locked)[k]? = some WStatus.locked →
        (some i : Option Nat) = some k := by
      intro k hk
      by_cases hik : i = k
      · rw [hik]
      · rw [List.getElem?_set_ne hik] at hk
        have hlk := wlock k hk
        rw [hl] at hlk
        simp at hlk
    have f5 : ∀ k, s.log.filter (fun p => p.1 == k)
        = expectedLog k ((s.workers.set i WStatus.locked)[k]?) := by
      intro k
      by_cases hik : i = k
      · subst hik
        have h0 := logw i
        rw [hw] at h0
        rw [List.getElem?_set_self hilt]
        simpa [expectedLog] using h0
      · rw [List.getElem?_set_ne hik]
        exact logw k
    exact ⟨f1, fifo, f3, f4, f5⟩
  | recvOk i j rest hw hl hq =>
    have hilt : i < s.workers.length := by
      rcases List.getElem?_eq_some_iff.mp hw with ⟨h, _⟩
      exact h
    have f1 : (s.workers.set i (WStatus.got j)).length = n := by simpa using wlen
    have f2 : (s.log ++ [(i, j)]).map Prod.snd ++ rest ++ s.pending = jobs := by
      rw [hq] at fifo
      simp only [List.map_append]
      simpa using fifo
    have f3 : ∀ k, (none : Option Nat) = some k →
        (s.workers.set i (WStatus.got j))[k]? = some WStatus.locked := by
      intro k hk
      simp at hk
    have f4 : ∀ k, (s.workers.set i (WStatus.got j))[k]? = some WStatus.locked →
        (none : Option Nat) = some k := by
      intro k hk
      by_cases hik : i = k
      · subst hik
        rw [List.getElem?_set_self hilt] at hk
        simp at hk
      · rw [List.getElem?_set_ne hik] at hk
        have hlk := wlock k hk
        rw [hl] at hlk
        exact absurd (Option.some.inj hlk) hik
    have f5 : ∀ k, (s.log ++ [(i, j)]).filter (fun p => p.1 == k)
        = expectedLog k ((s.workers.set i (WStatus.got j))[k]?) := by
      intro k
      rw [List.filter_append]
      by_cases hik : i = k
      · subst hik
        have h0 := logw i
        rw [hw] at h0
        rw [List.getElem?_set_self hilt, h0]
        simp [expectedLog]
      · rw [List.getElem?_set_ne hik]
        have h2 : List.filter (fun p => p.1 == k) [(i, j)] = [] := by
          simp [List.filter_cons, hik]
        rw [h2]
        simpa using logw k
    exact ⟨f1, f2, f3, f4, f5⟩
  | recvClosed i hw hl hq hsa =>
    have hilt : i < s.workers.length := by
      rcases List.getElem?_eq_some_iff.mp hw with ⟨h, _⟩
      exact h
    have f1 : (s.workers.set i WStatus.panicked).length = n := by simpa using wlen
    have f3 : ∀ k, (none : Option Nat) = some k →
        (s.workers.set i WStatus.panicked)[k]? = some WStatus.locked := by
      intro k hk
      simp at hk
    have f4 : ∀ k, (s.workers.set i WStatus.panicked)[k]? = some WStatus.locked →
        (none : Option Nat) = some k := by
      intro k hk
      by_cases hik : i = k
      · subst hik
        rw [List.getElem?_set_self hilt] at hk
        simp at hk
      · rw [List.getElem?_set_ne hik] at hk
        have hlk := wlock k hk
        rw [hl] at hlk
        exact absurd (Option.some.inj hlk) hik
    have f5 : ∀ k, s.log.filter (fun p => p.1 == k)
        = expectedLog k ((s.workers.set i WStatus.panicked)[k]?) := by
      intro k
      by_cases hik : i = k
      · subst hik
        have h0 := logw i
        rw [hw] at h0
        rw [List.getElem?_set_self hilt]
        simpa [expectedLog] using h0
      · rw [List.getElem?_set_ne hik]
        exact logw k
    exact ⟨f1, fifo, f3, f4, f5⟩
  | run i j hw =>
    have hilt : i < s.workers.length := by
      rcases List.getElem?_eq_some_iff.mp hw with ⟨h, _⟩
      exact h
    have f1 : (s.workers.set i (WStatus.terminated j)).length = n := by simpa using wlen
    have f3 : ∀ k, s.lock = some k →
        (s.workers.set i (WStatus.terminated j))[k]? = some WStatus.locked := by
      intro k hk
      have hlk := lockw k hk
      by_cases hik : i = k
      · subst hik
        rw [hw] at hlk
        simp at hlk
      · rw [List.getElem?_set_ne hik]
        exact hlk
    have f4 : ∀ k, (s.workers.set i (WStatus.terminated j))[k]? = some WStatus.locked →
        s.lock = some k := by
      intro k hk
      by_cases hik : i = k
      · subst hik
        rw [List.getElem?_set_self hilt] at hk
        simp at hk
      · rw [List.getElem?_set_ne hik] at hk
        exact wlock k hk
    have f5 : ∀ k, s.log.filter (fun p => p.1 == k)
        = expectedLog k ((s.workers.set i (WStatus.terminated j))[k]?) := by
      intro k
      by_cases hik : i = k
      · subst hik
        have h0 := logw i
        rw [hw] at h0
        rw [List.getElem?_set_self hilt]
        simpa [expectedLog] using h0
      · rw [List.getElem?_set_ne hik]
        exact logw k
    exact ⟨f1, fifo, f3, f4, f5⟩

theorem reach_inv {jobs : List Nat} {n : Nat} {s : PoolState}
    (h : Reach (initState jobs n) s) : Inv jobs n s := by
  induction h with
  | refl => exact inv_init jobs n
  | tail _ hstep ih => exact inv_step ih hstep

theorem inv_count_le_one {jobs : List Nat} {n : Nat} {s : PoolState}
    (h : Inv jobs n s) (i : Nat) : (s.log.map Prod.fst).count i ≤ 1 := by
  have hc : (s.log.map Prod.fst).count i = (s.log.filter (fun p => p.1 == i)).length := by
    rw [List.count_eq_countP, List.countP_map, List.countP_eq_length_filter]
    rfl
  rw [hc, h.logw i]
  exact expectedLog_length i _

theorem inv_nodup_fst {jobs : List Nat} {n : Nat} {s : PoolState}
    (h : Inv jobs n s) : (s.log.map Prod.fst).Nodup :=
  List.nodup_iff_count_le_one.mpr (fun i => inv_count_le_one h i)

theorem inv_mem_log {jobs : List Nat} {n : Nat} {s : PoolState}
    (h : Inv jobs n s) {p : Nat × Nat} (hp : p ∈ s.log) : p.1 < n := by
  have hmem : p ∈ s.log.filter (fun q => q.1 == p.1) := List.mem_filter.mpr ⟨hp, by simp⟩
  rw [h.logw p.1] at hmem
  cases hget : s.workers[p.1]? with
  | none =>
    rw [hget] at hmem
    simp [expectedLog] at hmem
  | some w =>
    rcases List.getElem?_eq_some_iff.mp hget with ⟨hlt, _⟩
    rw [h.wlen] at hlt
    exact hlt

theorem inv_done_mem {jobs : List Nat} {n : Nat} {s : PoolState}
    (h : Inv jobs n s) {i j : Nat}
    (hw : s.workers[i]? = some (WStatus.terminated j)) : (i, j) ∈ s.log := by
  have h0 := h.logw i
  rw [hw] at h0
  have hmem : (i, j) ∈ s.log.filter (fun p => p.1 == i) := by
    rw [h0]
    simp [expectedLog]
  exact (List.mem_filter.mp hmem).1

theorem inv_complete {jobs : List Nat} {n : Nat} {s : PoolState}
    (h : Inv jobs n s)
    (hdone : ∀ i, i < n → ∃ j, s.workers[i]? = some (WStatus.terminated j))
    (hlen : jobs.length = n) :
    s.log.map Prod.snd = jobs ∧ s.log.length = n := by
  have hnd := inv_nodup_fst h
  have hsub1 : s.log.map Prod.fst ⊆ List.range n := by
    intro x hx
    rcases List.mem_map.mp hx with ⟨p, hp, rfl⟩
    exact List.mem_range.mpr (inv_mem_log h hp)
  have hsub2 : List.range n ⊆ s.log.map Prod.fst := by
    intro i hi
    rcases hdone i (List.mem_range.mp hi) with ⟨j, hw⟩
    exact List.mem_map.mpr ⟨(i, j), inv_done_mem h hw, rfl⟩
  have hle1 := (List.subperm_of_subset hnd hsub1).length_le
  have hle2 := (List.subperm_of_subset (List.nodup_range n) hsub2).length_le
  simp only [List.length_map, List.length_range] at hle1 hle2
  have hloglen : s.log.length = n := Nat.le_antisymm hle1 hle2
  refine ⟨?_, hloglen⟩
  have hf := h.fifo
  have hlens := congrArg List.length hf
  simp only [List.length_append, List.length_map, hloglen, hlen] at hlens
  have hq : s.queue = [] := List.length_eq_zero.mp (by omega)
  have hp : s.pending = [] := List.length_eq_zero.mp (by omega)
  rw [hq, hp] at hf
  simpa using hf

theorem closed_absorb {s t : PoolState} {i : Nat} (h : Relation.ReflTransGen Step s t)
    (hsa : s.senderAlive = false) (hq : s.queue = [])
    (hw : s.workers[i]? = some WStatus.locked ∨ s.workers[i]? = some WStatus.panicked) :
    t.senderAlive = false ∧ t.queue = [] ∧
      (t.workers[i]? = some WStatus.locked ∨ t.workers[i]? = some WStatus.panicked) := by
  induction h with
  | refl => exact ⟨hsa, hq, hw⟩
  | tail hab hbc ih =>
    obtain ⟨ha, hb, hc⟩ := ih
    cases hbc with
    | enqueue j rest hp hsa2 =>
      rw [ha] at hsa2
      simp at hsa2
    | dropSender =>
      exact ⟨rfl, hb, hc⟩
    | acquire i2 hw2 hl =>
      have hne : i2 ≠ i := by
        intro he
        subst he
        cases hc with
        | inl h2 => rw [hw2] at h2; simp at h2
        | inr h2 => rw [hw2] at h2; simp at h2
      refine ⟨ha, hb, ?_⟩
      rw [List.getElem?_set_ne hne]
      exact hc
    | recvOk i2 j rest hw2 hl hq2 =>
      rw [hb] at hq2
      simp at hq2
    | recvClosed i2 hw2 hl hq2 hsa2 =>
      by_cases hik : i2 = i
      · subst hik
        rcases List.getElem?_eq_some_iff.mp hw2 with ⟨hilt, _⟩
        exact ⟨ha, hb, Or.inr (List.getElem?_set_self hilt)⟩
      · refine ⟨ha, hb, ?_⟩
        rw [List.getElem?_set_ne hik]
        exact hc
    | run i2 j hw2 =>
      have hne : i2 ≠ i := by
        intro he
        subst he
        cases hc with
        | inl h2 => rw [hw2] at h2; simp at h2
        | inr h2 => rw [hw2] at h2; simp at h2
      refine ⟨ha, hb, ?_⟩
      rw [List.getElem?_set_ne hne]
      exact hc

theorem buildLoop_ok (spawnErr : Nat → Option String) (ids : List Nat)
    (h : ∀ id, id ∈ ids → spawnErr id = none) :
    buildLoop spawnErr ids = Except.ok (ids.map Worker.mk) := by
  induction ids with
  | nil => rfl
  | cons a rest ih =>
    have ha : spawnErr a = none := h a (by simp)
    have hrest : ∀ id, id ∈ rest → spawnErr id = none := fun id hid => h id (by simp [hid])
    simp [buildLoop, workerNew, ha, ih hrest, Except.map]

theorem buildLoop_err (spawnErr : Nat → Option String) (pre : List Nat) (i : Nat)
    (post : List Nat) (e : String)
    (hpre : ∀ id, id ∈ pre → spawnErr id = none) (hi : spawnErr i = some e) :
    buildLoop spawnErr (pre ++ i :: post) = Except.error e := by
  induction pre with
  | nil => simp [buildLoop, workerNew, hi]
  | cons a rest ih =>
    have ha : spawnErr a = none := hpre a (by simp)
    have hrest : ∀ id, id ∈ rest → spawnErr id = none := fun id hid => hpre id (by simp [hid])
    simp [buildLoop, workerNew, ha, ih hrest, Except.map]

/-- Claim C3: for every size at least 1, when every underlying thread
spawn succeeds, build returns Ok with a ThreadPool owning exactly size
workers whose ids are exactly 0..size in creation order — sequential,
unique, and as many as requested (the model has no operation that ever
changes the workers of a built pool). -/
theorem build_success_ids (spawnErr : Nat → Option String) (size : Nat)
    (hpos : 0 < size) (hok : ∀ id, id < size → spawnErr id = none) :
    Except.map (fun p => (p.workers.map Worker.id, p.workers.length)) (build spawnErr size)
      = Except.ok (List.range size, size) := by
  have h1 : buildLoop spawnErr (List.range size)
      = Except.ok ((List.range size).map Worker.mk) :=
    buildLoop_ok spawnErr (List.range size) (fun id hid => hok id (List.mem_range.mp hid))
  unfold build
  rw [if_neg (Nat.pos_iff_ne_zero.mp hpos), h1]
  show Except.ok ((((List.range size).map Worker.mk).map Worker.id),
      ((List.range size).map Worker.mk).length) = Except.ok (List.range size, size)
  rw [List.map_map]
  show Except.ok ((List.range size).map (fun a => a),
      ((List.range size).map Worker.mk).length) = Except.ok (List.range size, size)
  rw [List.map_id', List.length_map, List.length_range]

/-- Witness for build_success_ids: a pool of size 3 with every spawn
succeeding. -/
theorem build_success_ids_witness :
    Except.map (fun p => (p.workers.map Worker.id, p.workers.length))
      (build (fun _ => none) 3) = Except.ok (List.range 3, 3) :=
  build_success_ids (fun _ => none) 3 (by decide) (fun _ _ => rfl)

/-- Claim C4: build 0 always fails with exactly the message
"Pool size has to be greater than 0" and performs no spawn call at all. -/
theorem build_zero_fails (spawnErr : Nat → Option String) :
    build spawnErr 0 = Except.error ⟨"Pool size has to be greater than 0"⟩ ∧
      spawnAttempts spawnErr 0 = [] :=
  ⟨rfl, rfl⟩

/-- Witness for build_zero_fails at a concrete spawn environment. -/
theorem build_zero_fails_witness :
    build (fun _ => none) 0 = Except.error ⟨"Pool size has to be greater than 0"⟩ ∧
      spawnAttempts (fun _ => none) 0 = [] :=
  build_zero_fails (fun _ => none)

/-- Claim C5 is false as stated: build's error message on a spawn
failure names only the underlying reason, not the failed worker's id.
With worker 7 failing for reason "boom" among 8 workers, the message is
"Cannot create pool worker: boom" — the decimal rendering of the id 7
does not occur in it (its character is absent altogether), and the very
same message results when instead worker 3 is the failing one. -/
theorem build_err_msg_counterexample :
    build (fun id => if id = 7 then some "boom" else none) 8
      = Except.error ⟨"Cannot create pool worker: boom"⟩ ∧
    '7' ∉ "Cannot create pool worker: boom".data ∧
    build (fun id => if id = 7 then some "boom" else none) 8
      = build (fun id => if id = 3 then some "boom" else none) 8 := by
  refine ⟨by rfl, by decide, by rfl⟩

/-- Claim C5 (amended): if the spawn of worker i fails (all earlier ids
succeeding), build aborts and returns a PoolCreationError whose message
is "Cannot create pool worker: " followed by the underlying failure's
description — it carries the reason but not the worker's id — and no
partial pool is returned. -/
theorem build_spawn_fail (spawnErr : Nat → Option String) (size i : Nat) (e : String)
    (hi : i < size) (hfail : spawnErr i = some e)
    (hpre : ∀ j, j < i → spawnErr j = none) :
    build spawnErr size = Except.error ⟨"Cannot create pool worker: " ++ e⟩ := by
  have hdecomp : List.range size
      = List.range i ++ i :: (List.range (size - i - 1)).map ((i + 1) + ·) := by
    have hsz : size = (i + 1) + (size - i - 1) := by omega
    calc List.range size
        = List.range ((i + 1) + (size - i - 1)) := by rw [← hsz]
      _ = List.range (i + 1) ++ (List.range (size - i - 1)).map ((i + 1) + ·) :=
          List.range_add (i + 1) (size - i - 1)
      _ = (List.range i ++ [i]) ++ (List.range (size - i - 1)).map ((i + 1) + ·) := by
          rw [List.range_succ]
      _ = List.range i ++ i :: (List.range (size - i - 1)).map ((i + 1) + ·) := by
          rw [List.append_assoc]
          rfl
  have herr := buildLoop_err spawnErr (List.range i) i
    ((List.range (size - i - 1)).map ((i + 1) + ·)) e
    (fun id hid => hpre id (List.mem_range.mp hid)) hfail
  unfold build
  rw [if_neg (by omega), hdecomp, herr]

/-- Witness for build_spawn_fail: worker 1 of 3 fails with reason
"no threads". -/
theorem build_spawn_fail_witness :
    build (fun id => if id = 1 then some "no threads" else none) 3
      = Except.error ⟨"Cannot create pool worker: no threads"⟩ :=
  build_spawn_fail (fun id => if id = 1 then some "no threads" else none) 3 1 "no threads"
    (by decide) (by decide) (by decide)

/-- Claim C7: ThreadPool::new is build(1) with the result unwrapped: it
returns exactly the pool build 1 yields when that succeeds, panics (the
none outcome) exactly when build 1 fails, and any failure of build 1 is
a spawn failure for worker 0 carrying the spawn-failure message — never
the zero-size rejection. -/
theorem new_equiv_build_one (spawnErr : Nat → Option String) :
    (∀ p, new spawnErr = some p ↔ build spawnErr 1 = Except.ok p) ∧
    ((new spawnErr = none) ↔ ∃ e, build spawnErr 1 = Except.error e) ∧
    (∀ e, build spawnErr 1 = Except.error e →
      ∃ r, spawnErr 0 = some r ∧ e.msg = "Cannot create pool worker: " ++ r) := by
  cases h0 : spawnErr 0 with
  | none =>
    have hb : build spawnErr 1 = Except.ok ⟨[⟨0⟩]⟩ := by
      have h1 : buildLoop spawnErr [0] = Except.ok [⟨0⟩] := by
        simp [buildLoop, workerNew, h0, Except.map]
      unfold build
      rw [if_neg one_ne_zero, show List.range 1 = [0] from rfl, h1]
    refine ⟨?_, ?_, ?_⟩
    · intro p
      unfold new
      rw [hb]
      simp [Except.toOption]
    · unfold new
      rw [hb]
      simp [Except.toOption]
    · intro e he
      rw [hb] at he
      simp at he
  | some r =>
    have hb : build spawnErr 1
        = Except.error ⟨"Cannot create pool worker: " ++ r⟩ := by
      have h1 : buildLoop spawnErr [0] = Except.error r := by
        simp [buildLoop, workerNew, h0]
      unfold build
      rw [if_neg one_ne_zero, show List.range 1 = [0] from rfl, h1]
    refine ⟨?_, ?_, ?_⟩
    · intro p
      unfold new
      rw [hb]
      simp [Except.toOption]
    · unfold new
      rw [hb]
      simp [Except.toOption]
    · intro e he
      rw [hb] at he
      have he2 : (⟨"Cannot create pool worker: " ++ r⟩ : PoolCreationError) = e :=
        Except.error.inj he
      exact ⟨r, rfl, by rw [← he2]⟩

/-- Witness for new_equiv_build_one: all spawns succeed, new returns the
one-worker pool build 1 returns. -/
theorem new_equiv_build_one_witness :
    new (fun _ => none) = some ⟨[⟨0⟩]⟩ ↔ build (fun _ => none) 1 = Except.ok ⟨[⟨0⟩]⟩ :=
  (new_equiv_build_one (fun _ => none)).1 ⟨[⟨0⟩]⟩

/-- Claim C9: the Debug formatting of PoolCreationError writes exactly
the carried message to the formatter: whatever the buffer holds it
appends precisely msg, so formatting into an empty buffer produces the
message string and nothing else.  (In the source the msg field is
private and this Debug impl is the only member of the error's public
interface.) -/
theorem poolCreationError_fmt (e : PoolCreationError) (buf : String) :
    e.fmtDebug buf = buf ++ e.msg ∧ e.fmtDebug "" = e.msg := by
  rcases e with ⟨⟨d⟩⟩
  exact ⟨rfl, rfl⟩

/-- Witness for poolCreationError_fmt on a concrete error. -/
theorem poolCreationError_fmt_witness :
    PoolCreationError.fmtDebug ⟨"pool failed"⟩ "" = "pool failed" :=
  (poolCreationError_fmt ⟨"pool failed"⟩ "").2

theorem stepChain1 : Step (initState [5] 1) ⟨[], [5], none, [WStatus.start], true, []⟩ :=
  Step.enqueue (initState [5] 1) 5 [] rfl rfl

theorem reachChain2 : Reach (initState [5] 1) ⟨[], [5], some 0, [WStatus.locked], true, []⟩ :=
  Relation.ReflTransGen.tail (Relation.ReflTransGen.single stepChain1)
    (Step.acquire ⟨[], [5], none, [WStatus.start], true, []⟩ 0 rfl rfl)

theorem reachChain :
    Reach (initState [5] 1) ⟨[], [], none, [WStatus.terminated 5], true, [(0, 5)]⟩ :=
  Relation.ReflTransGen.tail
    (Relation.ReflTransGen.tail reachChain2
      (Step.recvOk ⟨[], [5], some 0, [WStatus.locked], true, []⟩ 0 5 [] rfl rfl rfl))
    (Step.run ⟨[], [], none, [WStatus.got 5], true, [(0, 5)]⟩ 0 5 rfl)

theorem reachClosedChain :
    Reach (initState [] 1) ⟨[], [], some 0, [WStatus.locked], false, []⟩ :=
  Relation.ReflTransGen.tail
    (Relation.ReflTransGen.single (Step.dropSender (initState [] 1)))
    (Step.acquire ⟨[], [], none, [WStatus.start], false, []⟩ 0 rfl rfl)

/-- Claim C1: the worker thread body is exactly one dequeue-and-execute
cycle and then the thread ends: its trace always contains exactly one
recv call and at most one job invocation, and consequently, in every
reachable state of a running pool, each worker id accounts for at most
one entry of the dequeue log — a Worker processes at most one job during
its entire lifetime and never dequeues or runs a second one. -/
theorem worker_single_job {jobs : List Nat} {n : Nat} {s : PoolState}
    (h : Reach (initState jobs n) s) :
    (∀ i, (s.log.map Prod.fst).count i ≤ 1) ∧
    (∀ id r, (workerBody id r).1.countP Event.isRecvCall = 1 ∧
             (workerBody id r).1.countP Event.isInvoke ≤ 1) := by
  refine ⟨fun i => inv_count_le_one (reach_inv h) i, ?_⟩
  intro id r
  cases r <;>
    simp [workerBody, List.countP_cons, List.countP_nil, Event.isRecvCall, Event.isInvoke]

/-- Witness for worker_single_job along a complete concrete run of a
size-1 pool executing job 5. -/
theorem worker_single_job_witness :
    ((⟨[], [], none, [WStatus.terminated 5], true, [(0, 5)]⟩ : PoolState).log.map
      Prod.fst).count 0 ≤ 1 :=
  (worker_single_job reachChain).1 0

/-- Claim C2: in every reachable state, the dequeue log followed by the
queue and the not-yet-submitted jobs spells the submission sequence
(FIFO delivery to the single shared queue, nothing lost or duplicated
while it is open), the log's worker ids are pairwise distinct and within
the pool, and when n jobs were submitted to a pool of size n and every
worker's thread has terminated, the log lists exactly the n jobs in
submission order — each job executed exactly once, each on a distinct
Worker's thread. -/
theorem jobs_fifo_exactly_once {jobs : List Nat} {n : Nat} {s : PoolState}
    (h : Reach (initState jobs n) s) :
    (s.log.map Prod.snd ++ s.queue ++ s.pending = jobs) ∧
    (s.log.map Prod.fst).Nodup ∧
    (∀ p, p ∈ s.log → p.1 < n) ∧
    (jobs.length = n →
      (∀ i, i < n → ∃ j, s.workers[i]? = some (WStatus.terminated j)) →
      s.log.map Prod.snd = jobs ∧ s.log.length = n) :=
  have hinv := reach_inv h
  ⟨hinv.fifo, inv_nodup_fst hinv, fun _ hp => inv_mem_log hinv hp,
    fun hlen hdone => inv_complete hinv hdone hlen⟩

/-- Witness for jobs_fifo_exactly_once at the end of the complete
concrete run of a size-1 pool: the single job was executed once. -/
theorem jobs_fifo_exactly_once_witness :
    (⟨[], [], none, [WStatus.terminated 5], true, [(0, 5)]⟩ : PoolState).log.map Prod.snd
        = [5] ∧
      (⟨[], [], none, [WStatus.terminated 5], true, [(0, 5)]⟩ : PoolState).log.length = 1 :=
  (jobs_fifo_exactly_once reachChain).2.2.2 rfl
    (fun i hi => by
      have hi0 : i = 0 := by omega
      subst hi0
      exact ⟨5, rfl⟩)

/-- Claim C8: in every reachable state, at most one worker is inside the
dequeue critical section (any two workers blocked in recv with the lock
are the same one), the mutex's holder is precisely a worker blocked in
recv, and a worker that has received its job (printing/executing it) or
has terminated does not hold the lock — the lock is released before the
job is invoked and is held only for the dequeue. -/
theorem lock_only_for_dequeue {jobs : List Nat} {n : Nat} {s : PoolState}
    (h : Reach (initState jobs n) s) :
    (∀ (i k : Nat), s.workers[i]? = some WStatus.locked →
      s.workers[k]? = some WStatus.locked → i = k) ∧
    (∀ (i : Nat), s.lock = some i → s.workers[i]? = some WStatus.locked) ∧
    (∀ (i j : Nat), s.workers[i]? = some (WStatus.got j) → s.lock ≠ some i) ∧
    (∀ (i j : Nat), s.workers[i]? = some (WStatus.terminated j) → s.lock ≠ some i) := by
  have hinv := reach_inv h
  refine ⟨?_, hinv.lockw, ?_, ?_⟩
  · intro i k hi hk
    have h1 := hinv.wlock i hi
    have h2 := hinv.wlock k hk
    rw [h1] at h2
    exact Option.some.inj h2
  · intro i j hgot hlock
    have h1 := hinv.lockw i hlock
    rw [hgot] at h1
    simp at h1
  · intro i j hterm hlock
    have h1 := hinv.lockw i hlock
    rw [hterm] at h1
    simp at h1

/-- Witness for lock_only_for_dequeue at the concrete reachable state in
which worker 0 holds the lock blocked in recv. -/
theorem lock_only_for_dequeue_witness :
    (⟨[], [5], some 0, [WStatus.locked], true, []⟩ : PoolState).workers[0]?
      = some WStatus.locked :=
  (lock_only_for_dequeue reachChain2).2.1 0 rfl

/-- Claim C10: if the ThreadPool (and with it the Sender) has been
dropped and the queue is empty while worker i is still blocked in recv,
then recv returns Err and the unwrap panics: the transition to the
panicked status is enabled, and in every later state that worker is
still blocked or panicked — it never obtains a job and never reaches the
clean terminated status, so its thread ends by panic, the receive-error
branch being a panic rather than a handled case. -/
theorem worker_panics_on_closed_channel {jobs : List Nat} {n : Nat} {s : PoolState} {i : Nat}
    (h : Reach (initState jobs n) s) (hsa : s.senderAlive = false)
    (hq : s.queue = []) (hw : s.workers[i]? = some WStatus.locked) :
    Step s { s with lock := none, workers := s.workers.set i WStatus.panicked } ∧
    (∀ t, Reach s t →
      t.workers[i]? = some WStatus.locked ∨ t.workers[i]? = some WStatus.panicked) := by
  have hinv := reach_inv h
  refine ⟨Step.recvClosed s i hw (hinv.wlock i hw) hq hsa, ?_⟩
  intro t ht
  exact (closed_absorb ht hsa hq (Or.inl hw)).2.2

/-- Witness for worker_panics_on_closed_channel: pool of size 1 dropped
before any job was submitted; worker 0, blocked in recv, panics. -/
theorem worker_panic_witness :
    Step (⟨[], [], some 0, [WStatus.locked], false, []⟩ : PoolState)
      (⟨[], [], none, [WStatus.panicked], false, []⟩ : PoolState) ∧
    ((⟨[], [], none, [WStatus.panicked], false, []⟩ : PoolState).workers[0]?
        = some WStatus.locked ∨
      (⟨[], [], none, [WStatus.panicked], false, []⟩ : PoolState).workers[0]?
        = some WStatus.panicked) :=
  have h := @worker_panics_on_closed_channel [] 1
    ⟨[], [], some 0, [WStatus.locked], false, []⟩ 0 reachClosedChain rfl rfl rfl
  ⟨h.1, h.2 ⟨[], [], none, [WStatus.panicked], false, []⟩
    (Relation.ReflTransGen.single h.1)⟩

/-- Claim C6: execute is a total function of the channel state — the
send never blocks the caller at any queue depth — and through the unwrap
of the send result it signals an unrecoverable failure (the none
outcome) instead of silently dropping the job exactly when the receiving
half of the queue is gone, which is exactly when every worker's thread
has finished; in every other state the job is appended to the queue. -/
theorem execute_enqueues_or_panics (s : PoolState) (j : Nat) :
    (execute (receiverAliveOf s) s.queue j = none ↔
      ∀ w, w ∈ s.workers → WStatus.finished w = true) ∧
    (∀ q2, execute (receiverAliveOf s) s.queue j = some q2 → q2 = s.queue ++ [j]) := by
  cases hall : s.workers.all WStatus.finished with
  | true =>
    have hra : receiverAliveOf s = false := by simp [receiverAliveOf, hall]
    constructor
    · rw [hra]
      constructor
      · intro _
        exact List.all_eq_true.mp hall
      · intro _
        rfl
    · intro q2 hq2
      rw [hra] at hq2
      simp [execute, mpscSend, Except.toOption] at hq2
  | false =>
    have hra : receiverAliveOf s = true := by simp [receiverAliveOf, hall]
    constructor
    · rw [hra]
      constructor
      · intro hx
        simp [execute, mpscSend, Except.toOption] at hx
      · intro hall2
        rw [List.all_eq_true.mpr hall2] at hall
        cases hall
    · intro q2 hq2
      rw [hra] at hq2
      simp [execute, mpscSend, Except.toOption] at hq2
      exact hq2.symm

/-- Witness for execute_enqueues_or_panics: submitting to a pool whose
sole worker has panicked is the unwrap panic. -/
theorem execute_enqueues_or_panics_witness :
    execute (receiverAliveOf ⟨[], [], none, [WStatus.panicked], false, []⟩)
      (⟨[], [], none, [WStatus.panicked], false, []⟩ : PoolState).queue 9 = none :=
  (execute_enqueues_or_panics ⟨[], [], none, [WStatus.panicked], false, []⟩ 9).1.mpr
    (fun w hw => by
      have hwp : w = WStatus.panicked := by simpa using hw
      rw [hwp]
      rfl)
